import Mathlib

/-!
Shallow embedding of the signature-extraction pipeline of
`src/services/imageProcessing.ts` (together with the region-list
substitution step of `src/App.tsx`), and theorems checking the
specification's claims against it.

Modelling conventions:
* JavaScript floating-point arithmetic is modelled with `ℚ` (exact);
  `Math.round x` is `⌊x + 1/2⌋`, `Math.floor` on an integer quotient is
  `Int.fdiv`, and `Math.max`/`Math.min` are `max`/`min`.
* A canvas / `cv.Mat` is modelled by its luminance plane: a `RawImage`
  records width, height and an 8-bit pixel function.  `cv.cvtColor`
  RGBA→GRAY is the identity in this model; no claim inspects colour.
* Binary masks (`{0,255}`-valued single-channel mats) are Bool-valued
  images, `true` meaning 255 (ink).
* OpenCV calls that throw on malformed arguments (`cv.resize` with an
  empty destination size, `Mat.roi` outside the matrix, the `cv.Mat`
  constructor with negative dimensions) are modelled with `Except`; the
  `try/catch` of `processSingleSignatureWithOpenCV` becomes a `match`
  that returns the raw crop on the error branch.
-/

namespace SignCut

/-! ## Geometry -/

/-- Axis-aligned integer rectangle, modelling a `cv.Rect` and the
geometric part of a bounding rect. -/
structure Rect where
  x : ℤ
  y : ℤ
  width : ℤ
  height : ℤ
deriving DecidableEq

/-! ## SensitivityRecommender (`recommendSensitivity`, lines 241-255) -/

/-- Decision core of `recommendSensitivity`: the recommended sensitivity
as a function of the measured noise density (`edgePixels / totalPixels`)
and mean brightness, clamped to `[5, 35]`.  Transcribed from
`imageProcessing.ts` lines 241-255. -/
def recommendCore (noiseDensity brightness : ℚ) : ℤ :=
  let recommended : ℤ :=
    if noiseDensity > 0.15 then
      if brightness > 150 then 12 else if brightness < 100 then 8 else 10
    else if noiseDensity < 0.05 then
      if brightness > 150 then 28 else if brightness < 100 then 20 else 25
    else
      if brightness > 150 then 22 else if brightness < 100 then 15 else 18
  max 5 (min recommended 35)

/-! ## RegionDetector (`detectSignatureBounds`, lines 319-341) -/

/-- Acceptance test of `detectSignatureBounds` (line 328): the bounding
rect's area must lie strictly between `0.001·W·H` and `0.90·W·H`. -/
def acceptRect (W H : ℤ) (r : Rect) : Bool :=
  decide ((r.width * r.height : ℚ) > (W * H : ℚ) * 0.001 ∧
          (r.width * r.height : ℚ) < (W * H : ℚ) * 0.90)

/-- Padding and clamping of one accepted bounding rect in
`detectSignatureBounds` (lines 330-334): 20px of padding on each side,
clamped to the image bounds. -/
def padClampRect (W H : ℤ) (r : Rect) : Rect :=
  let x := max 0 (r.x - 20)
  let y := max 0 (r.y - 20)
  ⟨x, y, min (W - x) (r.width + 20 * 2), min (H - y) (r.height + 20 * 2)⟩

/-- Candidate-region production of `detectSignatureBounds`
(lines 319-341), as a function of the contours' bounding rects. -/
def detectBoxes (W H : ℤ) (rects : List Rect) : List Rect :=
  (rects.filter (acceptRect W H)).map (padClampRect W H)

/-! ## ContentCropper (smart-cropping loop of
`processSingleSignatureWithOpenCV`, lines 512-571) -/

/-- Contour statistic recorded by the smart-cropping loop
(lines 517-529): the contour's `cv.contourArea` and bounding rect. -/
structure CStat where
  area : ℚ
  rect : Rect
deriving DecidableEq

/-- Largest contour area (lines 525-527); `0` when there are no
contours. -/
def maxContourArea (stats : List CStat) : ℚ :=
  stats.foldl (fun m s => if s.area > m then s.area else m) 0

/-- Smart-cropping area threshold (line 532): one percent of the largest
contour area, with an absolute floor of 20. -/
def areaThreshold (stats : List CStat) : ℚ :=
  max 20 (maxContourArea stats * 0.01)

/-- Accumulator of the union-bounding-box loop (lines 512-513 and
534-544): running `minX`, `minY`, `maxX`, `maxY` and the `hasContent`
flag. -/
structure BoxAcc where
  minX : ℤ
  minY : ℤ
  maxX : ℤ
  maxY : ℤ
  hasContent : Bool
deriving DecidableEq

/-- One step of the union-bounding-box loop (lines 534-544): a contour
whose area exceeds the threshold extends the box and sets
`hasContent`. -/
def stepBox (t : ℚ) (a : BoxAcc) (s : CStat) : BoxAcc :=
  if s.area > t then
    ⟨min a.minX s.rect.x, min a.minY s.rect.y,
     max a.maxX (s.rect.x + s.rect.width),
     max a.maxY (s.rect.y + s.rect.height), true⟩
  else a

/-- Union bounding box over the contours whose area exceeds the
threshold (lines 512-544), starting from
`minX = cols, minY = rows, maxX = 0, maxY = 0, hasContent = false`. -/
def contentAcc (cols rows : ℤ) (stats : List CStat) : BoxAcc :=
  stats.foldl (stepBox (areaThreshold stats)) ⟨cols, rows, 0, 0, false⟩

/-- Crop rectangle used for the content crop (lines 558-571): when some
contour qualified, the union box expanded by the 4px blur pad and
clamped to the mask; otherwise the full mask extent. -/
def cropRectOf (cols rows : ℤ) (stats : List CStat) : Rect :=
  let a := contentAcc cols rows stats
  if a.hasContent then
    let cropX := max 0 (a.minX - 4)
    let cropY := max 0 (a.minY - 4)
    ⟨cropX, cropY, min (cols - cropX) ((a.maxX - a.minX) + 4 * 2),
     min (rows - cropY) ((a.maxY - a.minY) + 4 * 2)⟩
  else ⟨0, 0, cols, rows⟩

/-! ## Images and masks -/

/-- Grayscale raster image: the luminance plane of a canvas / `cv.Mat`,
8-bit values, indexed `pix x y` with `0 ≤ x < width`, `0 ≤ y < height`
(values outside that range are irrelevant to every operation). -/
@[ext]
structure RawImage where
  width : ℕ
  height : ℕ
  pix : ℕ → ℕ → ℕ

/-- Binary mask (a `{0,255}`-valued single-channel mat): `true` = 255,
meaning ink. -/
@[ext]
structure Mask where
  width : ℕ
  height : ℕ
  pix : ℕ → ℕ → Bool

/-- Number of ink (255) pixels of a mask, the quantity compared by
`cv.countNonZero`-style pixel counting. -/
def inkCount (m : Mask) : ℕ :=
  ∑ y ∈ Finset.range m.height, ∑ x ∈ Finset.range m.width,
    if m.pix x y then 1 else 0

/-- Mean intensity of an image, modelling `calculateBrightness`
(`cv.meanStdDev` mean channel, lines 7-15). -/
def brightnessOf (img : RawImage) : ℚ :=
  (∑ y ∈ Finset.range img.height, ∑ x ∈ Finset.range img.width,
    (img.pix x y : ℚ)) / (img.width * img.height : ℚ)

/-- BORDER_REFLECT_101 index reflection used by OpenCV's filters:
`-1 ↦ 1`, `n ↦ n - 2`, iterated via the period `2(n-1)`. -/
def reflect101 (n : ℕ) (i : ℤ) : ℕ :=
  if n ≤ 1 then 0
  else
    let m : ℤ := 2 * ((n : ℤ) - 1)
    let r := i % m
    if r < (n : ℤ) then r.toNat else (m - r).toNat

/-- Horizontal 5-tap pass of `cv.GaussianBlur(·, Size(5,5), 0)`: OpenCV
uses the fixed kernel `[1,4,6,4,1]/16` for `ksize = 5, sigma = 0`, with
REFLECT_101 borders and fixed-point rounding. -/
def blur5H (img : RawImage) : RawImage :=
  ⟨img.width, img.height, fun x y =>
    (([((-2 : ℤ), 1), (-1, 4), (0, 6), (1, 4), (2, 1)].foldl
      (fun acc d => acc + d.2 * img.pix (reflect101 img.width ((x : ℤ) + d.1)) y)
      0) + 8) / 16⟩

/-- Vertical 5-tap pass of the 5×5 Gaussian blur. -/
def blur5V (img : RawImage) : RawImage :=
  ⟨img.width, img.height, fun x y =>
    (([((-2 : ℤ), 1), (-1, 4), (0, 6), (1, 4), (2, 1)].foldl
      (fun acc d => acc + d.2 * img.pix x (reflect101 img.height ((y : ℤ) + d.1)))
      0) + 8) / 16⟩

/-- Separable 5×5 Gaussian blur (`cv.GaussianBlur(gray, blurred,
Size(5,5), 0)`, line 462). -/
def blur5 (img : RawImage) : RawImage := blur5V (blur5H img)

/-- Pascal's triangle row, used as the binomial (discrete Gaussian)
weight row of the adaptive-threshold window model. -/
def pascalRow : ℕ → List ℕ
  | 0 => [1]
  | n + 1 =>
    let l := pascalRow n
    List.zipWith (· + ·) (0 :: l) (l ++ [0])

/-- Weighted taps of one axis of the adaptive-threshold window: offsets
`-half … half` paired with binomial weights summing to `2 ^ (bs - 1)`. -/
def gaussTaps (bs : ℕ) : List (ℤ × ℕ) :=
  (pascalRow (bs - 1)).enum.map fun kv => ((kv.1 : ℤ) - ((bs - 1) / 2 : ℕ), kv.2)

/-- Model of the ADAPTIVE_THRESH_GAUSSIAN_C local mean of
`cv.adaptiveThreshold`: a normalized Gaussian-weighted mean over the
`blockSize × blockSize` window around the pixel, REFLECT_101 borders,
rounded to the nearest integer.  OpenCV's floating-point Gaussian kernel
is not exactly representable, so the model uses binomial
(discrete-Gaussian) weights; every theorem whose truth depends on the
local-mean values quantifies over an arbitrary mean map, and closed
evaluations only use uniform images, on which every normalized window
mean agrees. -/
def gaussMeanAt (bs : ℕ) (img : RawImage) (x y : ℕ) : ℤ :=
  let taps := gaussTaps bs
  let total : ℕ := 2 ^ (2 * (bs - 1))
  let s : ℕ := taps.foldl
    (fun acc dv => acc + taps.foldl
      (fun acc2 du => acc2 + du.2 * dv.2 *
        img.pix (reflect101 img.width ((x : ℤ) + du.1))
                (reflect101 img.height ((y : ℤ) + dv.1)))
      0)
    0
  ((s + total / 2) / total : ℕ)

/-- Inverted adaptive threshold
(`cv.adaptiveThreshold(blurred, ·, 255, ADAPTIVE_THRESH_GAUSSIAN_C,
THRESH_BINARY_INV, blockSize, C)`, line 474): a pixel becomes ink (255)
exactly when `src(p) ≤ T(p) - C`, where `T` is the local weighted
mean map. -/
def threshBinInv (src : RawImage) (T : ℕ → ℕ → ℤ) (C : ℤ) : Mask :=
  ⟨src.width, src.height, fun x y => decide ((src.pix x y : ℤ) ≤ T x y - C)⟩

/-- Brightness-adjusted threshold constant (line 466):
`brightness > 160 ? s+2 : brightness < 90 ? s-2 : s`. -/
def baseCOf (brightness : ℚ) (s : ℤ) : ℤ :=
  if brightness > 160 then s + 2 else if brightness < 90 then s - 2 else s

/-- Adaptive-threshold block size for region processing (lines 469-471):
`⌊min(cols, rows)/8⌋`, forced odd, floored at 31. -/
def blockSizeOf (cols rows : ℕ) : ℕ :=
  let b := min cols rows / 8
  let b := if b % 2 = 0 then b + 1 else b
  if b < 31 then 31 else b

/-! ## Morphology

Kernels are offset lists; `cv.getStructuringElement(MORPH_RECT,
Size(3,3))` is the full 3×3 neighbourhood and
`cv.getStructuringElement(MORPH_ELLIPSE, Size(3,3))` is the 3×3 cross.
OpenCV's default border for erosion is `+∞` (out-of-bounds samples never
remove ink) and for dilation `-∞` (out-of-bounds samples never add
ink). -/

/-- Full 3×3 rectangular structuring element. -/
def rectK3 : List (ℤ × ℤ) :=
  [(-1, -1), (0, -1), (1, -1), (-1, 0), (0, 0), (1, 0), (-1, 1), (0, 1), (1, 1)]

/-- 3×3 elliptical structuring element (the cross). -/
def ellipseK3 : List (ℤ × ℤ) := [(0, -1), (-1, 0), (0, 0), (1, 0), (0, 1)]

/-- Mask sample for erosion: out-of-bounds counts as ink. -/
def sampleE (m : Mask) (x y : ℤ) : Bool :=
  if 0 ≤ x ∧ x < (m.width : ℤ) ∧ 0 ≤ y ∧ y < (m.height : ℤ) then
    m.pix x.toNat y.toNat
  else true

/-- Mask sample for dilation: out-of-bounds counts as background. -/
def sampleD (m : Mask) (x y : ℤ) : Bool :=
  if 0 ≤ x ∧ x < (m.width : ℤ) ∧ 0 ≤ y ∧ y < (m.height : ℤ) then
    m.pix x.toNat y.toNat
  else false

/-- Erosion with kernel `K` (`cv.erode`): a pixel stays ink when every
in-bounds kernel sample is ink. -/
def erode (K : List (ℤ × ℤ)) (m : Mask) : Mask :=
  ⟨m.width, m.height, fun x y => K.all fun d => sampleE m ((x : ℤ) + d.1) ((y : ℤ) + d.2)⟩

/-- Dilation with kernel `K` (`cv.dilate`): a pixel becomes ink when some
in-bounds kernel sample is ink. -/
def dilate (K : List (ℤ × ℤ)) (m : Mask) : Mask :=
  ⟨m.width, m.height, fun x y => K.any fun d => sampleD m ((x : ℤ) + d.1) ((y : ℤ) + d.2)⟩

/-- Morphological opening, one iteration (`cv.morphologyEx(·, ·,
MORPH_OPEN, kernel, anchor, 1)`, line 482): erosion then dilation. -/
def morphOpen (K : List (ℤ × ℤ)) (m : Mask) : Mask := dilate K (erode K m)

/-- Refined binary mask of one crop at a given sensitivity: grayscale →
5×5 Gaussian blur → brightness-adjusted adaptive threshold (inverted) →
3×3 rectangular opening → sensitivity-driven weight adjustment
(dilate once below 12, erode once above 28), transcribed from
`processSingleSignatureWithOpenCV` lines 457-498. -/
def refinedMaskOf (crop : RawImage) (s : ℤ) : Mask :=
  let blurred := blur5 crop
  let C := baseCOf (brightnessOf blurred) s
  let bs := blockSizeOf crop.width crop.height
  let opened := morphOpen rectK3 (threshBinInv blurred (gaussMeanAt bs blurred) C)
  if s < 12 then dilate ellipseK3 opened
  else if s > 28 then erode ellipseK3 opened
  else opened

/-! ## Contour statistics

Model of `cv.findContours(·, ·, ·, RETR_EXTERNAL, CHAIN_APPROX_SIMPLE)`
followed by `cv.contourArea` and `cv.boundingRect` (lines 508-529): an
external contour corresponds to an 8-connected component of the ink
pixels; the statistic keeps its bounding rect and an area value.  The
exact `cv.contourArea` value (the Green-formula area of the boundary
polygon) is modelled by the component's pixel count; every theorem whose
truth depends on the area values quantifies over an arbitrary statistic
list, and closed evaluations only use masks with no ink at all, where
the list is empty under any contour semantics. -/

/-- In-bounds ink positions of a mask, in row-major order. -/
def inkList (m : Mask) : List (ℕ × ℕ) :=
  (List.range m.height).flatMap fun y =>
    ((List.range m.width).filter fun x => m.pix x y).map fun x => (x, y)

/-- 8-neighbourhood closeness (a point is close to itself). -/
def nearTo (p q : ℕ × ℕ) : Bool :=
  decide (((p.1 : ℤ) - q.1).natAbs ≤ 1 ∧ ((p.2 : ℤ) - q.2).natAbs ≤ 1)

/-- One expansion step of a pixel set inside the ink of a mask. -/
def growComp (m : Mask) (S : List (ℕ × ℕ)) : List (ℕ × ℕ) :=
  (inkList m).filter fun q => S.any fun s => nearTo s q

/-- 8-connected component of a pixel, reached by exhaustive expansion. -/
def compOf (m : Mask) (p : ℕ × ℕ) : List (ℕ × ℕ) :=
  (growComp m)^[m.width * m.height] [p]

/-- Row-major order on pixel positions. -/
def lexLE (p q : ℕ × ℕ) : Bool :=
  decide (p.2 < q.2 ∨ (p.2 = q.2 ∧ p.1 ≤ q.1))

/-- A pixel represents its component when it is the row-major least
member. -/
def isRepOf (m : Mask) (p : ℕ × ℕ) : Bool :=
  (compOf m p).all fun q => lexLE p q

/-- Bounding rect and area statistic of one pixel component. -/
def statOf : List (ℕ × ℕ) → CStat
  | [] => ⟨0, ⟨0, 0, 0, 0⟩⟩
  | p :: rest =>
    let x0 := rest.foldl (fun a q => min a q.1) p.1
    let x1 := rest.foldl (fun a q => max a q.1) p.1
    let y0 := rest.foldl (fun a q => min a q.2) p.2
    let y1 := rest.foldl (fun a q => max a q.2) p.2
    ⟨((p :: rest).length : ℚ),
     ⟨(x0 : ℤ), (y0 : ℤ), (x1 : ℤ) - (x0 : ℤ) + 1, (y1 : ℤ) - (y0 : ℤ) + 1⟩⟩

/-- Contour statistic list of a mask: one entry per 8-connected ink
component. -/
def contourStatsOf (m : Mask) : List CStat :=
  ((inkList m).filter (isRepOf m)).map fun p => statOf (compOf m p)

/-! ## Resizing, centering and compositing (lines 556-636) -/

/-- Errors raised by the OpenCV backend and caught by the surrounding
`try/catch`: `cv.resize` with an empty destination size, a `Mat.roi`
outside the matrix, the `cv.Mat` constructor with negative
dimensions. -/
inductive CvError where
  | matCreate
  | roiOutOfRange
  | resizeEmpty
deriving DecidableEq

/-- JavaScript `Math.round`: round half toward positive infinity. -/
def jsRound (x : ℚ) : ℤ := ⌊x + 1 / 2⌋

/-- Scaled destination size and centering offsets (lines 574-588):
5%-padding with a 10px floor, uniform scale fitting the crop into the
padded target, `Math.round`ed destination size and `Math.floor`ed
centering offsets. -/
structure Layout where
  dsW : ℤ
  dsH : ℤ
  dx : ℤ
  dy : ℤ
deriving DecidableEq

/-- Layout computation of lines 574-588. -/
def layoutOf (croppedW croppedH targetWidth targetHeight : ℤ) : Layout :=
  let padding : ℚ := max 10 ((min targetWidth targetHeight : ℤ) * (0.05 : ℚ))
  let availW : ℚ := (targetWidth : ℚ) - padding * 2
  let availH : ℚ := (targetHeight : ℚ) - padding * 2
  let scale : ℚ := min (availW / (croppedW : ℚ)) (availH / (croppedH : ℚ))
  let dsW := jsRound ((croppedW : ℚ) * scale)
  let dsH := jsRound ((croppedH : ℚ) * scale)
  ⟨dsW, dsH, (targetWidth - dsW).fdiv 2, (targetHeight - dsH).fdiv 2⟩

/-- Horizontal 3-tap pass of `cv.GaussianBlur(·, Size(3,3), 0)` (the
anti-aliasing soft mask, line 503): fixed kernel `[1,2,1]/4`. -/
def blur3H (img : RawImage) : RawImage :=
  ⟨img.width, img.height, fun x y =>
    (([((-1 : ℤ), 1), (0, 2), (1, 1)].foldl
      (fun acc d => acc + d.2 * img.pix (reflect101 img.width ((x : ℤ) + d.1)) y)
      0) + 2) / 4⟩

/-- Vertical 3-tap pass of the 3×3 Gaussian blur. -/
def blur3V (img : RawImage) : RawImage :=
  ⟨img.width, img.height, fun x y =>
    (([((-1 : ℤ), 1), (0, 2), (1, 1)].foldl
      (fun acc d => acc + d.2 * img.pix x (reflect101 img.height ((y : ℤ) + d.1)))
      0) + 2) / 4⟩

/-- Separable 3×3 Gaussian blur. -/
def blur3 (img : RawImage) : RawImage := blur3V (blur3H img)

/-- Binary mask rendered as an 8-bit image (255 = ink). -/
def maskToGray (m : Mask) : RawImage :=
  ⟨m.width, m.height, fun x y => if m.pix x y then 255 else 0⟩

/-- Pixel-transport model of `cv.resize` (line 584).  The interpolated
sample values (INTER_AREA / INTER_CUBIC floating-point arithmetic) are
not exactly representable and no claim depends on them; the model
transports the nearest source pixel. -/
def resizeModel (img : RawImage) (w h : ℕ) : RawImage :=
  ⟨w, h, fun x y => img.pix (x * img.width / w) (y * img.height / h)⟩

/-- Final composited canvas (lines 506 and 587-615): a white
`targetWidth × targetHeight` canvas whose centered region receives
`255 - alpha` (black ink with the soft mask as opacity composited onto
opaque white), where `alpha` is the resized crop of the blurred mask. -/
def compositeOut (soft : RawImage) (cropR : Rect) (L : Layout)
    (targetWidth targetHeight : ℤ) : RawImage :=
  let croppedAlpha : RawImage :=
    ⟨cropR.width.toNat, cropR.height.toNat, fun x y =>
      soft.pix (cropR.x.toNat + x) (cropR.y.toNat + y)⟩
  let resized := resizeModel croppedAlpha L.dsW.toNat L.dsH.toNat
  ⟨targetWidth.toNat, targetHeight.toNat, fun x y =>
    if L.dx ≤ (x : ℤ) ∧ (x : ℤ) < L.dx + L.dsW ∧
       L.dy ≤ (y : ℤ) ∧ (y : ℤ) < L.dy + L.dsH then
      255 - resized.pix ((x : ℤ) - L.dx).toNat ((y : ℤ) - L.dy).toNat
    else 255⟩

/-! ## Per-region processing (`processSingleSignatureWithOpenCV`,
lines 436-654) -/

/-- Stage pipeline of `processSingleSignatureWithOpenCV` inside the
`try` block (lines 456-636): refined mask, contour statistics, smart
crop, layout and compositing.  The `Except` branches are the points
where the OpenCV backend throws. -/
def pipelineCore (crop : RawImage) (sensitivity targetWidth targetHeight : ℤ) :
    Except CvError RawImage :=
  let refined := refinedMaskOf crop sensitivity
  if targetWidth < 0 ∨ targetHeight < 0 then .error .matCreate
  else
    let stats := contourStatsOf refined
    let cropR := cropRectOf (crop.width : ℤ) (crop.height : ℤ) stats
    if ¬ (0 ≤ cropR.x ∧ 0 ≤ cropR.y ∧ 0 ≤ cropR.width ∧ 0 ≤ cropR.height ∧
          cropR.x + cropR.width ≤ (crop.width : ℤ) ∧
          cropR.y + cropR.height ≤ (crop.height : ℤ)) then .error .roiOutOfRange
    else
      let L := layoutOf cropR.width cropR.height targetWidth targetHeight
      if L.dsW ≤ 0 ∨ L.dsH ≤ 0 then .error .resizeEmpty
      else if ¬ (0 ≤ L.dx ∧ 0 ≤ L.dy ∧ L.dx + L.dsW ≤ targetWidth ∧
                 L.dy + L.dsH ≤ targetHeight) then .error .roiOutOfRange
      else .ok (compositeOut (blur3 (maskToGray refined)) cropR L targetWidth targetHeight)

/-- Whole of `processSingleSignatureWithOpenCV`: the stage pipeline with
its surrounding `try/catch` (lines 638-640) — on any processing error
the function returns the unprocessed source canvas
(`sourceCanvas.toDataURL()`). -/
def processSingleSignature (crop : RawImage) (sensitivity targetWidth targetHeight : ℤ) :
    RawImage :=
  match pipelineCore crop sensitivity targetWidth targetHeight with
  | .ok img => img
  | .error _ => crop

/-! ## Orchestrator (`processSignatureRegions`, lines 360-434, and the
region-list substitution of `App.tsx`) -/

/-- Editor-facing selection box (`SelectionBox` of `types.ts`); the
opaque string id is modelled by a natural number. -/
structure SelBox where
  id : ℕ
  x : ℤ
  y : ℤ
  width : ℤ
  height : ℤ
deriving DecidableEq

/-- Record produced per region (`ProcessedSignature` of `types.ts`); the
data-url payloads are modelled by the images they encode. -/
structure ProcessedSig where
  id : ℕ
  originalDataUrl : RawImage
  processedDataUrl : RawImage
  width : ℤ
  height : ℤ

/-- Crop extraction (lines 387-410, rotation-free branch): a
`box.width × box.height` canvas sampling the source at the box
offset. -/
def cropImage (src : RawImage) (box : SelBox) : RawImage :=
  ⟨box.width.toNat, box.height.toNat, fun x y =>
    src.pix (box.x.toNat + x) (box.y.toNat + y)⟩

/-- Processing of one (valid) region (lines 386-425): extract the raw
crop, process it, and build the `ProcessedSignature` record with the
requested output dimensions in its `width`/`height` fields. -/
def processOneRegion (src : RawImage) (sensitivity targetWidth targetHeight : ℤ)
    (box : SelBox) : ProcessedSig :=
  let rawCrop := cropImage src box
  ⟨box.id, rawCrop, processSingleSignature rawCrop sensitivity targetWidth targetHeight,
   targetWidth, targetHeight⟩

/-- The orchestrator loop of `processSignatureRegions` (lines 379-433):
regions with non-positive width or height are skipped (`continue`), the
others are processed in input order and accumulated. -/
def processRegions (src : RawImage) (regions : List SelBox)
    (sensitivity targetWidth targetHeight : ℤ) : List ProcessedSig :=
  regions.foldl
    (fun acc box =>
      if box.width ≤ 0 ∨ box.height ≤ 0 then acc
      else acc ++ [processOneRegion src sensitivity targetWidth targetHeight box])
    []

/-- Progress-callback stream (lines 427-430): one synchronous call per
emitted signature, carrying the signature, its index
(`results.length - 1`) and `total = regions.length`. -/
def progressEvents (src : RawImage) (regions : List SelBox)
    (sensitivity targetWidth targetHeight : ℤ) : List (ProcessedSig × ℕ × ℕ) :=
  (processRegions src regions sensitivity targetWidth targetHeight).enum.map
    fun p => (p.2, p.1, regions.length)

/-- Region-list substitution of `handleProcessFromEditor`
(`App.tsx` lines 257-267): an empty box list is replaced by a single
full-image box (id `full-image-${imageId}`, modelled by `imgId`). -/
def boxesToProcess (imgId : ℕ) (imgW imgH : ℤ) (boxes : List SelBox) : List SelBox :=
  if boxes.isEmpty then [⟨imgId, 0, 0, imgW, imgH⟩] else boxes

/-- Editor-driven local processing flow (`App.tsx`): the substituted box
list handed to `processSignatureRegions`. -/
def processFromEditor (src : RawImage) (imgId : ℕ) (boxes : List SelBox)
    (sensitivity targetWidth targetHeight : ℤ) : List ProcessedSig :=
  processRegions src
    (boxesToProcess imgId (src.width : ℤ) (src.height : ℤ) boxes)
    sensitivity targetWidth targetHeight

/-! ## Helper lemmas on the smart-cropping folds -/

/-- The running-maximum fold never drops below its seed. -/
lemma maxFold_ge_seed (l : List CStat) (m : ℚ) :
    m ≤ l.foldl (fun m s => if s.area > m then s.area else m) m := by
  induction l generalizing m with
  | nil => exact le_refl m
  | cons a l ih =>
    refine le_trans ?_ (ih _)
    by_cases h : a.area > m
    · simpa [h] using le_of_lt h
    · simp [h]

/-- The running-maximum fold dominates every member's area. -/
lemma maxFold_ge_mem (l : List CStat) (m : ℚ) {s : CStat} (hs : s ∈ l) :
    s.area ≤ l.foldl (fun m s => if s.area > m then s.area else m) m := by
  induction l generalizing m with
  | nil => cases hs
  | cons a l ih =>
    rcases List.mem_cons.mp hs with rfl | hs
    · refine le_trans ?_ (maxFold_ge_seed l _)
      by_cases h : s.area > m
      · simp [h]
      · simpa [h] using le_of_not_lt h
    · exact ih _ hs

/-- The running-maximum fold is bounded by any common upper bound. -/
lemma maxFold_le (l : List CStat) (m c : ℚ) (hm : m ≤ c)
    (hl : ∀ s ∈ l, s.area ≤ c) :
    l.foldl (fun m s => if s.area > m then s.area else m) m ≤ c := by
  induction l generalizing m with
  | nil => exact hm
  | cons a l ih =>
    refine ih _ ?_ fun s hs => hl s (List.mem_cons_of_mem _ hs)
    by_cases h : a.area > m
    · simpa [h] using hl a (List.mem_cons_self _ _)
    · simpa [h] using hm

/-- Contours at or below the threshold leave the box accumulator
unchanged. -/
lemma foldl_stepBox_skip (t : ℚ) (a : BoxAcc) (l : List CStat)
    (h : ∀ s ∈ l, ¬ s.area > t) :
    l.foldl (stepBox t) a = a := by
  induction l generalizing a with
  | nil => rfl
  | cons s l ih =>
    have hs : ¬ s.area > t := h s (List.mem_cons_self _ _)
    have : stepBox t a s = a := by simp [stepBox, hs]
    rw [List.foldl_cons, this]
    exact ih a fun s hs => h s (List.mem_cons_of_mem _ hs)

/-! ## Claim theorems: decision table, detector, content cropper -/

/-- C3: `recommendSensitivity` returns exactly the decision table over
noise density and mean brightness — `12/10/8`, `22/18/15`, `28/25/20`
across the three noise bands and three brightness bands — clamped to
`[5, 35]`; a bright low-edge-density image yields 28 and a dark
high-edge-density image yields 8. -/
theorem recommend_matches_table (nd b : ℚ) :
    (5 ≤ recommendCore nd b ∧ recommendCore nd b ≤ 35) ∧
    (0.15 < nd →
      (150 < b → recommendCore nd b = 12) ∧
      (100 ≤ b → b ≤ 150 → recommendCore nd b = 10) ∧
      (b < 100 → recommendCore nd b = 8)) ∧
    (0.05 ≤ nd → nd ≤ 0.15 →
      (150 < b → recommendCore nd b = 22) ∧
      (100 ≤ b → b ≤ 150 → recommendCore nd b = 18) ∧
      (b < 100 → recommendCore nd b = 15)) ∧
    (nd < 0.05 →
      (150 < b → recommendCore nd b = 28) ∧
      (100 ≤ b → b ≤ 150 → recommendCore nd b = 25) ∧
      (b < 100 → recommendCore nd b = 20)) ∧
    recommendCore (1 / 100) 200 = 28 ∧ recommendCore (2 / 10) 50 = 8 := by
  refine ⟨⟨?_, ?_⟩, fun h1 => ⟨fun h2 => ?_, fun h2 h3 => ?_, fun h2 => ?_⟩,
    fun h1 h2 => ⟨fun h3 => ?_, fun h3 h4 => ?_, fun h3 => ?_⟩,
    fun h1 => ⟨fun h2 => ?_, fun h2 h3 => ?_, fun h2 => ?_⟩, ?_, ?_⟩ <;>
    simp only [recommendCore] <;> split_ifs <;> norm_num
  all_goals linarith

/-- C3 witness: a low-noise (noise density `1/100`) mid-brightness (130)
image is recommended sensitivity 25, per the table's low-noise row. -/
theorem recommend_matches_table_witness : recommendCore (1 / 100) 130 = 25 :=
  ((recommend_matches_table (1 / 100) 130).2.2.2.1 (by norm_num)).2.1
    (by norm_num) (by norm_num)

/-- C9: every candidate region produced by `detectSignatureBounds` is
exactly the 20px-padded, bounds-clamped bounding rect of a contour whose
bounding-rect area lies strictly between `0.001·W·H` and `0.90·W·H`, and
it satisfies the Region invariant `0 ≤ x`, `0 ≤ y`, `0 < width`,
`0 < height`, `x + width ≤ W`, `y + height ≤ H`. -/
theorem detect_boxes_invariant (W H : ℤ) (rects : List Rect)
    (hW : 1 ≤ W) (hH : 1 ≤ H)
    (hin : ∀ r ∈ rects, 0 ≤ r.x ∧ 0 ≤ r.y ∧ 0 ≤ r.width ∧ 0 ≤ r.height ∧
           r.x + r.width ≤ W ∧ r.y + r.height ≤ H) :
    detectBoxes W H rects = (rects.filter (acceptRect W H)).map (padClampRect W H) ∧
    ∀ b ∈ detectBoxes W H rects,
      (0 ≤ b.x ∧ 0 ≤ b.y ∧ 0 < b.width ∧ 0 < b.height ∧
       b.x + b.width ≤ W ∧ b.y + b.height ≤ H) ∧
      ∃ r ∈ rects, acceptRect W H r = true ∧ b = padClampRect W H r := by
  refine ⟨rfl, fun b hb => ?_⟩
  obtain ⟨r, hr, rfl⟩ := List.mem_map.mp hb
  obtain ⟨hrmem, hacc⟩ := List.mem_filter.mp hr
  obtain ⟨hx, hy, hw, hh, hxw, hyh⟩ := hin r hrmem
  have harea := of_decide_eq_true hacc
  have hWH : (1 : ℚ) ≤ (W : ℚ) * (H : ℚ) := by
    have : (1 : ℤ) ≤ W * H := one_le_mul_of_one_le_of_one_le hW hH
    exact_mod_cast this
  have hprodQ : (0 : ℚ) < (r.width : ℚ) * (r.height : ℚ) := by
    have := harea.1
    nlinarith
  have hprod : (0 : ℤ) < r.width * r.height := by exact_mod_cast hprodQ
  have hw1 : 1 ≤ r.width := by nlinarith
  have hh1 : 1 ≤ r.height := by nlinarith
  refine ⟨?_, ⟨r, hrmem, hacc, rfl⟩⟩
  simp only [padClampRect]
  omega

/-- C9 witness: a 100×100 page with one contour rect `(10,10,30,20)`
(area 600, between `0.001·10000` and `0.90·10000`) produces the padded,
clamped box `(0,0,70,60)`, which satisfies the Region invariant. -/
theorem detect_boxes_invariant_witness :
    (0 : ℤ) ≤ (padClampRect 100 100 ⟨10, 10, 30, 20⟩).x ∧
    0 < (padClampRect 100 100 ⟨10, 10, 30, 20⟩).width ∧
    (padClampRect 100 100 ⟨10, 10, 30, 20⟩).x +
      (padClampRect 100 100 ⟨10, 10, 30, 20⟩).width ≤ 100 := by
  have hmem : padClampRect 100 100 ⟨10, 10, 30, 20⟩ ∈
      detectBoxes 100 100 [⟨10, 10, 30, 20⟩] := by
    have hfl : detectBoxes 100 100 [⟨10, 10, 30, 20⟩] =
        [padClampRect 100 100 ⟨10, 10, 30, 20⟩] := by
      with_unfolding_all rfl
    rw [hfl]
    exact List.mem_singleton.mpr rfl
  have h := (detect_boxes_invariant 100 100 [⟨10, 10, 30, 20⟩] (by norm_num) (by norm_num)
    (by
      intro r hr
      rw [List.mem_singleton] at hr
      subst hr
      norm_num)).2 _ hmem
  exact ⟨h.1.1, h.1.2.2.1, h.1.2.2.2.2.1⟩

/-- C4 (amended): on a statistic list with one dominant blob of area
`A > 20` and specks each of area below `0.01·A`, the union-bounding-box
loop keeps exactly the blob, so the accumulated content box is the
blob's bounding box with `hasContent` set. -/
theorem content_box_dominant_blob (cols rows : ℤ) (l₁ l₂ : List CStat) (blob : CStat)
    (hA : 20 < blob.area)
    (hspecks : ∀ s ∈ l₁ ++ l₂, s.area < 0.01 * blob.area)
    (hx : 0 ≤ blob.rect.x) (hy : 0 ≤ blob.rect.y)
    (hw : 0 ≤ blob.rect.width) (hh : 0 ≤ blob.rect.height)
    (hxw : blob.rect.x + blob.rect.width ≤ cols)
    (hyh : blob.rect.y + blob.rect.height ≤ rows) :
    contentAcc cols rows (l₁ ++ blob :: l₂) =
      ⟨blob.rect.x, blob.rect.y, blob.rect.x + blob.rect.width,
       blob.rect.y + blob.rect.height, true⟩ := by
  have hA0 : (0 : ℚ) < blob.area := by linarith
  have hspeck₁ : ∀ s ∈ l₁, s.area < 0.01 * blob.area := fun s hs =>
    hspecks s (List.mem_append_left _ hs)
  have hspeck₂ : ∀ s ∈ l₂, s.area < 0.01 * blob.area := fun s hs =>
    hspecks s (List.mem_append_right _ hs)
  have hmax : maxContourArea (l₁ ++ blob :: l₂) = blob.area := by
    refine le_antisymm ?_ (maxFold_ge_mem _ _ (by simp))
    refine maxFold_le _ _ _ (le_of_lt hA0) fun s hs => ?_
    rcases List.mem_append.mp hs with hs | hs
    · have := hspeck₁ s hs; nlinarith
    · rcases List.mem_cons.mp hs with rfl | hs
      · exact le_refl _
      · have := hspeck₂ s hs; nlinarith
  have ht : areaThreshold (l₁ ++ blob :: l₂) = max 20 (blob.area * 0.01) := by
    rw [areaThreshold, hmax]
  have hblobq : max 20 (blob.area * 0.01) < blob.area :=
    max_lt_iff.mpr ⟨hA, by nlinarith⟩
  have hspeckq : ∀ s ∈ l₁ ++ l₂, ¬ s.area > max 20 (blob.area * 0.01) := by
    intro s hs
    have := hspecks s hs
    have h2 : blob.area * 0.01 ≤ max 20 (blob.area * 0.01) := le_max_right _ _
    push_neg
    nlinarith
  rw [contentAcc, ht, List.foldl_append,
    foldl_stepBox_skip _ _ _ fun s hs => hspeckq s (List.mem_append_left _ hs),
    List.foldl_cons,
    foldl_stepBox_skip _ _ _ fun s hs => hspeckq s (List.mem_append_right _ hs)]
  simp only [stepBox, if_pos hblobq]
  congr 1 <;> omega

/-- C4 counterexample input: one dominant blob of area 10 with speck
area `1/20 < 0.01·10`; nothing clears the absolute floor of 20. -/
def cexStats : List CStat := [⟨10, ⟨1, 1, 4, 4⟩⟩, ⟨0.05, ⟨8, 8, 1, 1⟩⟩]

/-- C4 counterexample: a mask with a dominant blob (area 10, bounding
box 1,1–5,5) and one speck below `0.01·A` makes the loop keep nothing —
`hasContent` stays false and the accumulator is not the blob's bounding
box, contradicting the claim, which promises the blob's box for every
such mask. -/
theorem content_box_dominant_blob_cex :
    contentAcc 100 100 cexStats = ⟨100, 100, 0, 0, false⟩ ∧
    (⟨100, 100, 0, 0, false⟩ : BoxAcc) ≠ ⟨1, 1, 5, 5, true⟩ := by
  constructor
  · with_unfolding_all rfl
  · decide

/-- C4 witness: a dominant blob of area 100 (bounding box 2,3–6,8) with
one speck of area `1/2 < 0.01·100` is kept alone and yields exactly the
blob's bounding box. -/
theorem content_box_dominant_blob_witness :
    contentAcc 20 20 [⟨0.5, ⟨50, 50, 1, 1⟩⟩, ⟨100, ⟨2, 3, 4, 5⟩⟩] =
      ⟨2, 3, 6, 8, true⟩ := by
  have h := content_box_dominant_blob 20 20 [⟨0.5, ⟨50, 50, 1, 1⟩⟩] []
    ⟨100, ⟨2, 3, 4, 5⟩⟩ (by norm_num)
    (by
      intro s hs
      simp only [List.append_nil, List.mem_singleton] at hs
      subst hs
      norm_num)
    (by norm_num) (by norm_num) (by norm_num) (by norm_num) (by norm_num) (by norm_num)
  simpa using h

/-- C8: when no contour's area exceeds the threshold (a mask with no
qualifying contour, including one with no contours at all), the box
accumulator keeps `hasContent = false` and the crop rectangle used for
the content crop falls back to the full mask extent. -/
theorem empty_content_full_extent (cols rows : ℤ) (stats : List CStat)
    (h : ∀ s ∈ stats, s.area ≤ areaThreshold stats) :
    contentAcc cols rows stats = ⟨cols, rows, 0, 0, false⟩ ∧
    cropRectOf cols rows stats = ⟨0, 0, cols, rows⟩ := by
  have hacc : contentAcc cols rows stats = ⟨cols, rows, 0, 0, false⟩ :=
    foldl_stepBox_skip _ _ _ fun s hs => not_lt_of_le (h s hs)
  refine ⟨hacc, ?_⟩
  rw [cropRectOf, hacc]
  rfl

/-- C8 witness: a single contour of area 5 does not clear the absolute
floor 20, so the crop rectangle is the full 10×10 extent. -/
theorem empty_content_full_extent_witness :
    contentAcc 10 10 [⟨5, ⟨0, 0, 2, 2⟩⟩] = ⟨10, 10, 0, 0, false⟩ ∧
    cropRectOf 10 10 [⟨5, ⟨0, 0, 2, 2⟩⟩] = ⟨0, 0, 10, 10⟩ := by
  refine empty_content_full_extent 10 10 _ ?_
  intro s hs
  simp only [List.mem_singleton] at hs
  subst hs
  simp only [areaThreshold, maxContourArea, List.foldl_cons, List.foldl_nil]
  norm_num

/-! ## Monotonicity lemmas for the morphological pipeline -/

@[simp]
lemma erode_width (K : List (ℤ × ℤ)) (m : Mask) : (erode K m).width = m.width := rfl

@[simp]
lemma erode_height (K : List (ℤ × ℤ)) (m : Mask) : (erode K m).height = m.height := rfl

@[simp]
lemma dilate_width (K : List (ℤ × ℤ)) (m : Mask) : (dilate K m).width = m.width := rfl

@[simp]
lemma dilate_height (K : List (ℤ × ℤ)) (m : Mask) : (dilate K m).height = m.height := rfl

/-- Pointwise mask ordering: every ink pixel of `a` is an ink pixel of
`b`. -/
def maskLE (a b : Mask) : Prop :=
  ∀ x y, a.pix x y = true → b.pix x y = true

/-- Erosion sampling is monotone for same-size masks. -/
lemma sampleE_mono {a b : Mask} (hw : a.width = b.width) (hh : a.height = b.height)
    (h : maskLE a b) (x y : ℤ) (hs : sampleE a x y = true) : sampleE b x y = true := by
  unfold sampleE at hs ⊢
  rw [← hw, ← hh]
  split at hs
  · rename_i hc
    rw [if_pos hc]
    exact h _ _ hs
  · rename_i hc
    rw [if_neg hc]

/-- Dilation sampling is monotone for same-size masks. -/
lemma sampleD_mono {a b : Mask} (hw : a.width = b.width) (hh : a.height = b.height)
    (h : maskLE a b) (x y : ℤ) (hs : sampleD a x y = true) : sampleD b x y = true := by
  unfold sampleD at hs ⊢
  rw [← hw, ← hh]
  split at hs
  · rename_i hc
    rw [if_pos hc]
    exact h _ _ hs
  · exact absurd hs (by simp)

/-- Erosion is monotone. -/
lemma erode_mono (K : List (ℤ × ℤ)) {a b : Mask} (hw : a.width = b.width)
    (hh : a.height = b.height) (h : maskLE a b) : maskLE (erode K a) (erode K b) := by
  intro x y hp
  simp only [erode, List.all_eq_true] at hp ⊢
  exact fun d hd => sampleE_mono hw hh h _ _ (hp d hd)

/-- Dilation is monotone. -/
lemma dilate_mono (K : List (ℤ × ℤ)) {a b : Mask} (hw : a.width = b.width)
    (hh : a.height = b.height) (h : maskLE a b) : maskLE (dilate K a) (dilate K b) := by
  intro x y hp
  simp only [dilate, List.any_eq_true] at hp ⊢
  obtain ⟨d, hd, hs⟩ := hp
  exact ⟨d, hd, sampleD_mono hw hh h _ _ hs⟩

/-- Opening is monotone. -/
lemma morphOpen_mono (K : List (ℤ × ℤ)) {a b : Mask} (hw : a.width = b.width)
    (hh : a.height = b.height) (h : maskLE a b) : maskLE (morphOpen K a) (morphOpen K b) :=
  dilate_mono K (by simp [hw]) (by simp [hh]) (erode_mono K hw hh h)

/-- Erosion with a kernel containing the origin removes ink only:
in-bounds pixels of the eroded mask were ink before. -/
lemma erode_le_self (K : List (ℤ × ℤ)) (h0 : ((0 : ℤ), (0 : ℤ)) ∈ K) (m : Mask)
    (x y : ℕ) (hx : x < m.width) (hy : y < m.height)
    (hp : (erode K m).pix x y = true) : m.pix x y = true := by
  simp only [erode, List.all_eq_true] at hp
  have := hp _ h0
  simpa [sampleE, hx, hy] using this

/-- Dilation with a kernel containing the origin adds ink only:
in-bounds ink pixels stay ink. -/
lemma dilate_ge_self (K : List (ℤ × ℤ)) (h0 : ((0 : ℤ), (0 : ℤ)) ∈ K) (m : Mask)
    (x y : ℕ) (hx : x < m.width) (hy : y < m.height)
    (hp : m.pix x y = true) : (dilate K m).pix x y = true := by
  simp only [dilate, List.any_eq_true]
  exact ⟨_, h0, by simpa [sampleD, hx, hy] using hp⟩

/-- Pointwise ordering on in-bounds pixels gives ink-count ordering. -/
lemma inkCount_le_of_le {a b : Mask} (hw : a.width = b.width) (hh : a.height = b.height)
    (h : ∀ x y, x < a.width → y < a.height → a.pix x y = true → b.pix x y = true) :
    inkCount a ≤ inkCount b := by
  unfold inkCount
  rw [← hw, ← hh]
  refine Finset.sum_le_sum fun y hy => Finset.sum_le_sum fun x hx => ?_
  rcases hpa : a.pix x y with _ | _
  · simp
  · rw [h x y (Finset.mem_range.mp hx) (Finset.mem_range.mp hy) hpa]

/-- The inverted adaptive threshold is antitone in the constant `C`: a
larger constant never adds ink. -/
lemma threshBinInv_antitone (src : RawImage) (T : ℕ → ℕ → ℤ) {C C' : ℤ} (h : C ≤ C') :
    maskLE (threshBinInv src T C') (threshBinInv src T C) := by
  intro x y hp
  simp only [threshBinInv, decide_eq_true_eq] at hp ⊢
  omega

/-- The brightness-adjusted constant is monotone in the sensitivity. -/
lemma baseCOf_mono (b : ℚ) {s t : ℤ} (h : s ≤ t) : baseCOf b s ≤ baseCOf b t := by
  unfold baseCOf
  split_ifs <;> omega

/-- C2: ink-count monotonicity of the refined mask across the control
bands — on the same crop, any sensitivity above 28 (which erodes once)
yields at most the ink pixels of the run at 20, and any sensitivity
below 12 (which dilates once) yields at least them; the adaptive
threshold constant itself grows with sensitivity. -/
theorem sensitivity_monotone_ink_count (crop : RawImage) (s : ℤ) :
    (28 < s → inkCount (refinedMaskOf crop s) ≤ inkCount (refinedMaskOf crop 20)) ∧
    (s < 12 → inkCount (refinedMaskOf crop 20) ≤ inkCount (refinedMaskOf crop s)) := by
  set blurred := blur5 crop with hblurred
  set T := gaussMeanAt (blockSizeOf crop.width crop.height) blurred with hT
  set bright := brightnessOf blurred with hbright
  have h20 : refinedMaskOf crop 20 =
      morphOpen rectK3 (threshBinInv blurred T (baseCOf bright 20)) := by
    simp only [refinedMaskOf]
    rw [if_neg (by omega), if_neg (by omega)]
  constructor
  · intro hs
    have hsform : refinedMaskOf crop s =
        erode ellipseK3 (morphOpen rectK3 (threshBinInv blurred T (baseCOf bright s))) := by
      simp only [refinedMaskOf]
      rw [if_neg (by omega), if_pos (by omega)]
    rw [hsform, h20]
    have hC : baseCOf bright 20 ≤ baseCOf bright s := baseCOf_mono _ (by omega)
    have hmono : maskLE (morphOpen rectK3 (threshBinInv blurred T (baseCOf bright s)))
        (morphOpen rectK3 (threshBinInv blurred T (baseCOf bright 20))) :=
      morphOpen_mono _ rfl rfl (threshBinInv_antitone _ _ hC)
    have step1 : inkCount (erode ellipseK3
          (morphOpen rectK3 (threshBinInv blurred T (baseCOf bright s)))) ≤
        inkCount (morphOpen rectK3 (threshBinInv blurred T (baseCOf bright s))) :=
      inkCount_le_of_le rfl rfl fun x y hx hy hp =>
        erode_le_self ellipseK3 (by simp [ellipseK3]) _ x y hx hy hp
    have step2 : inkCount (morphOpen rectK3 (threshBinInv blurred T (baseCOf bright s))) ≤
        inkCount (morphOpen rectK3 (threshBinInv blurred T (baseCOf bright 20))) :=
      inkCount_le_of_le rfl rfl fun x y _ _ hp => hmono x y hp
    exact le_trans step1 step2
  · intro hs
    have hsform : refinedMaskOf crop s =
        dilate ellipseK3 (morphOpen rectK3 (threshBinInv blurred T (baseCOf bright s))) := by
      simp only [refinedMaskOf]
      rw [if_pos (by omega)]
    rw [hsform, h20]
    have hC : baseCOf bright s ≤ baseCOf bright 20 := baseCOf_mono _ (by omega)
    have hmono : maskLE (morphOpen rectK3 (threshBinInv blurred T (baseCOf bright 20)))
        (morphOpen rectK3 (threshBinInv blurred T (baseCOf bright s))) :=
      morphOpen_mono _ rfl rfl (threshBinInv_antitone _ _ hC)
    have step1 : inkCount (morphOpen rectK3 (threshBinInv blurred T (baseCOf bright 20))) ≤
        inkCount (morphOpen rectK3 (threshBinInv blurred T (baseCOf bright s))) :=
      inkCount_le_of_le rfl rfl fun x y _ _ hp => hmono x y hp
    have step2 : inkCount (morphOpen rectK3 (threshBinInv blurred T (baseCOf bright s))) ≤
        inkCount (dilate ellipseK3
          (morphOpen rectK3 (threshBinInv blurred T (baseCOf bright s)))) :=
      inkCount_le_of_le rfl rfl fun x y hx hy hp =>
        dilate_ge_self ellipseK3 (by simp [ellipseK3]) _ x y hx hy hp
    exact le_trans step1 step2

/-- C2 witness: on a concrete 3×3 crop, sensitivity 30 produces at most
and sensitivity 5 at least the ink pixels of sensitivity 20. -/
theorem sensitivity_monotone_ink_count_witness :
    inkCount (refinedMaskOf ⟨3, 3, fun x y => 10 * x + 20 * y⟩ 30) ≤
      inkCount (refinedMaskOf ⟨3, 3, fun x y => 10 * x + 20 * y⟩ 20) ∧
    inkCount (refinedMaskOf ⟨3, 3, fun x y => 10 * x + 20 * y⟩ 20) ≤
      inkCount (refinedMaskOf ⟨3, 3, fun x y => 10 * x + 20 * y⟩ 5) :=
  ⟨(sensitivity_monotone_ink_count _ 30).1 (by norm_num),
   (sensitivity_monotone_ink_count _ 5).2 (by norm_num)⟩

/-! ## Orchestrator characterization -/

/-- Validity test of the orchestrator loop (line 384): a region survives
unless its width or height is non-positive. -/
def validBox (b : SelBox) : Bool := !(decide (b.width ≤ 0 ∨ b.height ≤ 0))

/-- The orchestrator fold emits exactly the valid regions, in input
order, each mapped through per-region processing. -/
lemma processRegions_foldl (src : RawImage) (s tW tH : ℤ) (l : List SelBox)
    (acc : List ProcessedSig) :
    l.foldl (fun acc box => if box.width ≤ 0 ∨ box.height ≤ 0 then acc
      else acc ++ [processOneRegion src s tW tH box]) acc =
    acc ++ (l.filter validBox).map (processOneRegion src s tW tH) := by
  induction l generalizing acc with
  | nil => simp
  | cons b l ih =>
    by_cases hb : b.width ≤ 0 ∨ b.height ≤ 0
    · rw [List.foldl_cons, if_pos hb, ih]
      have hv : validBox b = false := by simp [validBox, hb]
      simp [List.filter_cons, hv]
    · rw [List.foldl_cons, if_neg hb, ih]
      have hv : validBox b = true := by simp only [validBox, Bool.not_eq_true']; simpa using hb
      simp [List.filter_cons, hv]

/-- Characterization of `processSignatureRegions`: filter the valid
regions, then map per-region processing over them. -/
lemma processRegions_eq (src : RawImage) (regions : List SelBox) (s tW tH : ℤ) :
    processRegions src regions s tW tH =
      (regions.filter validBox).map (processOneRegion src s tW tH) := by
  unfold processRegions
  simpa using processRegions_foldl src s tW tH regions []

/-- On the non-error path the composited canvas has exactly the target
dimensions. -/
lemma pipelineCore_ok_dims {crop : RawImage} {s tW tH : ℤ} {img : RawImage}
    (h : pipelineCore crop s tW tH = Except.ok img) :
    img.width = tW.toNat ∧ img.height = tH.toNat := by
  simp only [pipelineCore] at h
  split at h
  · exact absurd h (by simp)
  · split at h
    · exact absurd h (by simp)
    · split at h
      · exact absurd h (by simp)
      · split at h
        · exact absurd h (by simp)
        · rw [Except.ok.injEq] at h
          subst h
          exact ⟨rfl, rfl⟩

/-! ## Claim theorems: pipeline output dimensions and error handling -/

/-- C1 (amended): for every region batch, sensitivity and positive
output spec, each emitted signature's processed bitmap has exactly the
requested output dimensions whenever the per-region OpenCV stage
pipeline completes without throwing; when it throws, the caught fallback
substitutes the raw crop (whose dimensions are the region's own). -/
theorem processed_bitmap_dims (src : RawImage) (regions : List SelBox) (s tW tH : ℤ)
    (hW : 0 < tW) (hH : 0 < tH) :
    ∀ sig ∈ processRegions src regions s tW tH,
      (∃ e, pipelineCore sig.originalDataUrl s tW tH = Except.error e) ∨
      ((sig.processedDataUrl.width : ℤ) = tW ∧ (sig.processedDataUrl.height : ℤ) = tH) := by
  intro sig hsig
  rw [processRegions_eq] at hsig
  obtain ⟨b, hb, rfl⟩ := List.mem_map.mp hsig
  rcases hcore : pipelineCore (cropImage src b) s tW tH with e | img
  · exact Or.inl ⟨e, hcore⟩
  · refine Or.inr ?_
    have hdims := pipelineCore_ok_dims hcore
    have hproc : (processOneRegion src s tW tH b).processedDataUrl = img := by
      simp [processOneRegion, processSingleSignature, hcore]
    rw [hproc, hdims.1, hdims.2, Int.toNat_of_nonneg (le_of_lt hW),
      Int.toNat_of_nonneg (le_of_lt hH)]
    exact ⟨rfl, rfl⟩

/-- One-pixel uniform test image (value 128). -/
def srcOne : RawImage := ⟨1, 1, fun _ _ => 128⟩

/-- Full-image selection box over the one-pixel test image. -/
def boxOne : SelBox := ⟨0, 0, 0, 1, 1⟩

/-- C1 counterexample: with sensitivity 20 (inside `[5,40]`) and the
positive output spec 3×3, the 10px padding floor leaves a negative
available area, `cv.resize` is called with a negative destination size
and throws, and the emitted signature's processed bitmap is the raw 1×1
crop — not the requested 3×3. -/
theorem processed_bitmap_dims_cex :
    (processRegions srcOne [boxOne] 20 3 3).map
      (fun sig => (sig.processedDataUrl.width, sig.processedDataUrl.height)) =
      [(1, 1)] ∧ ((1 : ℕ), (1 : ℕ)) ≠ ((3 : ℕ), (3 : ℕ)) := by
  constructor
  · with_unfolding_all rfl
  · decide

/-- Success discriminator of the stage pipeline. -/
def isOkE (e : Except CvError RawImage) : Bool :=
  match e with
  | .ok _ => true
  | .error _ => false

/-- C1 witness: at output spec 452×224 on a concrete one-pixel region
the stage pipeline succeeds, and the emitted bitmap is exactly
452×224. -/
theorem processed_bitmap_dims_witness :
    ((processOneRegion srcOne 20 452 224 boxOne).processedDataUrl.width : ℤ) = 452 ∧
    ((processOneRegion srcOne 20 452 224 boxOne).processedDataUrl.height : ℤ) = 224 := by
  have hmem : processOneRegion srcOne 20 452 224 boxOne ∈
      processRegions srcOne [boxOne] 20 452 224 := by
    rw [show processRegions srcOne [boxOne] 20 452 224 =
      [processOneRegion srcOne 20 452 224 boxOne] from rfl]
    exact List.mem_singleton.mpr rfl
  have h := processed_bitmap_dims srcOne [boxOne] 20 452 224 (by norm_num) (by norm_num)
    _ hmem
  have hok : isOkE (pipelineCore
      (processOneRegion srcOne 20 452 224 boxOne).originalDataUrl 20 452 224) = true := by
    with_unfolding_all rfl
  rcases h with ⟨e, he⟩ | h2
  · rw [he] at hok
    exact absurd hok (by simp [isOkE])
  · exact h2

/-- C5: per-region exceptions are caught inside per-region processing —
whenever the stage pipeline throws for a region, that region's emitted
record carries the unprocessed raw crop as its processed result, and the
batch still emits one record per valid region (no exception aborts the
batch or escapes to the caller). -/
theorem region_failure_fallback (src : RawImage) (regions : List SelBox) (s tW tH : ℤ) :
    (processRegions src regions s tW tH).length = (regions.filter validBox).length ∧
    ∀ sig ∈ processRegions src regions s tW tH, ∀ e,
      pipelineCore sig.originalDataUrl s tW tH = Except.error e →
      sig.processedDataUrl = sig.originalDataUrl := by
  constructor
  · rw [processRegions_eq, List.length_map]
  · intro sig hsig e he
    rw [processRegions_eq] at hsig
    obtain ⟨b, hb, rfl⟩ := List.mem_map.mp hsig
    have horig : (processOneRegion src s tW tH b).originalDataUrl = cropImage src b := rfl
    rw [horig] at he
    simp [processOneRegion, processSingleSignature, he]

/-- C5 witness: on the concrete one-pixel region with output spec 3×3
the stage pipeline throws at the resize, one record is still emitted,
and its processed payload is the raw crop. -/
theorem region_failure_fallback_witness :
    (processRegions srcOne [boxOne] 20 3 3).length = 1 ∧
    (processOneRegion srcOne 20 3 3 boxOne).processedDataUrl =
      (processOneRegion srcOne 20 3 3 boxOne).originalDataUrl := by
  have h := region_failure_fallback srcOne [boxOne] 20 3 3
  refine ⟨by simpa using h.1, ?_⟩
  have hmem : processOneRegion srcOne 20 3 3 boxOne ∈
      processRegions srcOne [boxOne] 20 3 3 := by
    rw [show processRegions srcOne [boxOne] 20 3 3 =
      [processOneRegion srcOne 20 3 3 boxOne] from rfl]
    exact List.mem_singleton.mpr rfl
  refine h.2 _ hmem CvError.resizeEmpty ?_
  with_unfolding_all rfl

/-- C6: when the editor hands over an empty region list, the App-level
orchestration substitutes a single full-image region, so exactly one
signature is produced and its raw crop is the entire source image. -/
theorem empty_region_list_full_image (src : RawImage) (imgId : ℕ) (s tW tH : ℤ)
    (hW : 0 < src.width) (hH : 0 < src.height) :
    (processFromEditor src imgId [] s tW tH).length = 1 ∧
    ∀ sig ∈ processFromEditor src imgId [] s tW tH,
      sig.id = imgId ∧ sig.originalDataUrl = src ∧
      sig.processedDataUrl = processSingleSignature src s tW tH := by
  have hv : validBox ⟨imgId, 0, 0, (src.width : ℤ), (src.height : ℤ)⟩ = true := by
    simp only [validBox, Bool.not_eq_true', decide_eq_false_iff_not]
    push_neg
    omega
  have hcrop : cropImage src ⟨imgId, 0, 0, (src.width : ℤ), (src.height : ℤ)⟩ = src := by
    ext x y
    · simp [cropImage]
    · simp [cropImage]
    · simp [cropImage]
  have hform : processFromEditor src imgId [] s tW tH =
      [processOneRegion src s tW tH ⟨imgId, 0, 0, (src.width : ℤ), (src.height : ℤ)⟩] := by
    rw [processFromEditor, boxesToProcess]
    simp only [List.isEmpty_nil, eq_self_iff_true, if_true]
    rw [processRegions_eq]
    simp [hv]
  refine ⟨by rw [hform]; rfl, ?_⟩
  intro sig hsig
  rw [hform, List.mem_singleton] at hsig
  subst hsig
  refine ⟨rfl, hcrop, ?_⟩
  show processSingleSignature
    (cropImage src ⟨imgId, 0, 0, (src.width : ℤ), (src.height : ℤ)⟩) s tW tH =
    processSingleSignature src s tW tH
  rw [hcrop]

/-- C6 witness: a concrete image with an empty box list yields exactly
one signature. -/
theorem empty_region_list_full_image_witness :
    (processFromEditor srcOne 7 [] 20 452 224).length = 1 :=
  (empty_region_list_full_image srcOne 7 20 452 224 (by decide) (by decide)).1

/-- C7: a region with non-positive width or height is excluded from the
orchestrator's output entirely — removing it from anywhere in the batch
changes neither the emitted records nor the per-signature progress
callbacks (signature and index), so the remaining regions are processed
in input order and nothing crashes. -/
theorem invalid_region_excluded (src : RawImage) (s tW tH : ℤ)
    (l₁ l₂ : List SelBox) (bad : SelBox) (hbad : bad.width ≤ 0 ∨ bad.height ≤ 0) :
    processRegions src (l₁ ++ bad :: l₂) s tW tH =
      processRegions src (l₁ ++ l₂) s tW tH ∧
    (progressEvents src (l₁ ++ bad :: l₂) s tW tH).map (fun ev => (ev.1, ev.2.1)) =
      (progressEvents src (l₁ ++ l₂) s tW tH).map (fun ev => (ev.1, ev.2.1)) := by
  have hv : validBox bad = false := by simp [validBox, hbad]
  have h1 : processRegions src (l₁ ++ bad :: l₂) s tW tH =
      processRegions src (l₁ ++ l₂) s tW tH := by
    rw [processRegions_eq, processRegions_eq, List.filter_append, List.filter_append,
      List.filter_cons, hv]
    simp
  refine ⟨h1, ?_⟩
  simp only [progressEvents, List.map_map]
  rw [h1]
  rfl

/-- C7 witness: a zero-width region in a concrete singleton batch
produces the same (empty) output and progress stream as the empty
batch. -/
theorem invalid_region_excluded_witness :
    processRegions srcOne [⟨5, 0, 0, 0, 7⟩] 20 452 224 =
      processRegions srcOne [] 20 452 224 := by
  have h := (invalid_region_excluded srcOne 20 452 224 [] [] ⟨5, 0, 0, 0, 7⟩
    (Or.inl (by norm_num))).1
  simpa using h

/-- C10: every emitted record's `width`/`height` fields equal the
requested output parameters unconditionally; the record's raw crop has
the region's own dimensions, and when the stage pipeline throws, the
processed payload is exactly that raw crop — so the fields describe the
intended output size, not necessarily the bitmap's real dimensions. -/
theorem record_fields_are_requested_size (src : RawImage) (regions : List SelBox)
    (s tW tH : ℤ) (sig : ProcessedSig)
    (hsig : sig ∈ processRegions src regions s tW tH) :
    sig.width = tW ∧ sig.height = tH ∧
    ∃ b ∈ regions, 0 < b.width ∧ 0 < b.height ∧
      sig.originalDataUrl.width = b.width.toNat ∧
      sig.originalDataUrl.height = b.height.toNat ∧
      (∀ e, pipelineCore sig.originalDataUrl s tW tH = Except.error e →
        sig.processedDataUrl = sig.originalDataUrl) := by
  rw [processRegions_eq] at hsig
  obtain ⟨b, hb, rfl⟩ := List.mem_map.mp hsig
  obtain ⟨hbmem, hbval⟩ := List.mem_filter.mp hb
  have hpos : 0 < b.width ∧ 0 < b.height := by
    simp only [validBox, Bool.not_eq_true', decide_eq_false_iff_not] at hbval
    push_neg at hbval
    exact hbval
  refine ⟨rfl, rfl, b, hbmem, hpos.1, hpos.2, rfl, rfl, fun e he => ?_⟩
  have horig : (processOneRegion src s tW tH b).originalDataUrl = cropImage src b := rfl
  rw [horig] at he
  simp [processOneRegion, processSingleSignature, he]

/-- C10 witness: on the concrete failing run (output spec 3×3) the
emitted record still reports width 3 and height 3 while its processed
payload is the 1×1 raw crop. -/
theorem record_fields_are_requested_size_witness :
    (processOneRegion srcOne 20 3 3 boxOne).width = 3 ∧
    (processOneRegion srcOne 20 3 3 boxOne).height = 3 ∧
    (processOneRegion srcOne 20 3 3 boxOne).processedDataUrl =
      (processOneRegion srcOne 20 3 3 boxOne).originalDataUrl := by
  have hmem : processOneRegion srcOne 20 3 3 boxOne ∈
      processRegions srcOne [boxOne] 20 3 3 := by
    rw [show processRegions srcOne [boxOne] 20 3 3 =
      [processOneRegion srcOne 20 3 3 boxOne] from rfl]
    exact List.mem_singleton.mpr rfl
  have h := record_fields_are_requested_size srcOne [boxOne] 20 3 3 _ hmem
  refine ⟨h.1, h.2.1, ?_⟩
  obtain ⟨b, hbmem, _, _, _, _, hfall⟩ := h.2.2
  refine hfall CvError.resizeEmpty ?_
  with_unfolding_all rfl

end SignCut
